import Mathlib

/-!
Verification of the OptiRide physics + pacing + simulation core.

The definitions below are a shallow embedding, over the real numbers, of
`src/optiride/models.py`, `src/optiride/physics.py` and
`src/optiride/optimizer.py`.  Python floats are modelled as reals, numpy
arrays as lists of reals, `Optional` fields as `Option`, and operations
that can raise (`IndexError` on a too-short distance array, dataclass
construction) as `Option`/`Except` values.  Field and function names
follow the source.
-/

/-- Data model from `models.py`: rider and bike system (`RiderBike` dataclass).
Optional fields default to `None` in the source; they are `Option` here. -/
structure RiderBike where
  mass_rider_kg : ℝ
  mass_bike_kg : ℝ
  crr : ℝ
  cda : ℝ
  drivetrain_eff : ℝ
  cp : Option ℝ
  w_prime_j : Option ℝ
  ftp : Option ℝ
  age : Option ℤ

/-- Derived property `mass_system_kg` from `models.py`. -/
def RiderBike.mass_system_kg (rb : RiderBike) : ℝ :=
  rb.mass_rider_kg + rb.mass_bike_kg

/-- Data model from `models.py`: environmental conditions (`Environment`
dataclass).  Per the source docstring, `wind_u_ms` is the east-west wind
component (positive = eastward) and `wind_v_ms` the north-south component
(positive = northward). -/
structure Environment where
  air_density : ℝ
  wind_u_ms : ℝ
  wind_v_ms : ℝ

/-- The dataclass-generated constructor of `RiderBike` performs no
validation and never raises; it is modelled in an error monad to make the
absence of construction-time errors expressible. -/
def riderBikeInit (mass_rider_kg mass_bike_kg crr cda drivetrain_eff : ℝ)
    (cp w_prime_j ftp : Option ℝ) (age : Option ℤ) : Except String RiderBike :=
  Except.ok ⟨mass_rider_kg, mass_bike_kg, crr, cda, drivetrain_eff, cp, w_prime_j, ftp, age⟩

/-- The dataclass-generated constructor of `Environment`; as in the source
it performs no validation and never raises. -/
def environmentInit (air_density wind_u_ms wind_v_ms : ℝ) : Except String Environment :=
  Except.ok ⟨air_density, wind_u_ms, wind_v_ms⟩

/-- Standard gravity constant from `physics.py`. -/
def GRAVITY : ℝ := 9.80665

/-- Python's `math.radians`. -/
noncomputable def radians (deg : ℝ) : ℝ := deg * Real.pi / 180

/-- Python's `math.hypot`. -/
noncomputable def hypot (x y : ℝ) : ℝ := Real.sqrt (x ^ 2 + y ^ 2)

/-- `relative_air_speed` from `physics.py`: magnitude of the rider velocity
vector (resolved east/north from the bearing) minus the wind vector. -/
noncomputable def relative_air_speed (v_ms bearing_deg : ℝ) (env : Environment) : ℝ :=
  let bearing_rad := radians bearing_deg
  let direction_east := Real.sin bearing_rad
  let direction_north := Real.cos bearing_rad
  let velocity_east := v_ms * direction_east
  let velocity_north := v_ms * direction_north
  let relative_east := velocity_east - env.wind_u_ms
  let relative_north := velocity_north - env.wind_v_ms
  hypot relative_east relative_north

/-- `power_required` from `physics.py` (Martin et al. model): gravity,
rolling, aerodynamic and acceleration terms, divided by drivetrain
efficiency and clamped to be non-negative. -/
noncomputable def power_required (v_ms slope_tan bearing_deg : ℝ)
    (rb : RiderBike) (env : Environment) (acc_ms2 : ℝ) : ℝ :=
  let slope_angle_rad := Real.arctan slope_tan
  let total_mass := rb.mass_system_kg
  let air_density := env.air_density
  let v_rel := relative_air_speed v_ms bearing_deg env
  let power_gravity := total_mass * GRAVITY * v_ms * Real.sin slope_angle_rad
  let power_rolling := rb.crr * total_mass * GRAVITY * v_ms * Real.cos slope_angle_rad
  let power_aero := 0.5 * air_density * rb.cda * v_rel ^ 3
  let power_acceleration := total_mass * acc_ms2 * v_ms
  let power_total :=
    (power_gravity + power_rolling + power_aero + power_acceleration) / rb.drivetrain_eff
  max 0.0 power_total

/-- One iteration of the bisection loop of `speed_from_power`: compare the
power needed at the interval midpoint against the target and keep the half
interval that still brackets the target. -/
noncomputable def bisectStep (f : ℝ → ℝ) (power_w : ℝ) (s : ℝ × ℝ) : ℝ × ℝ :=
  let v_mid := 0.5 * (s.1 + s.2)
  if f v_mid > power_w then (s.1, v_mid) else (v_mid, s.2)

/-- `speed_from_power` from `physics.py`: 50 bisection iterations over the
fixed interval from 0 to 60/3.6 m/s, returning the final midpoint. -/
noncomputable def speed_from_power (power_w slope_tan bearing_deg : ℝ)
    (rb : RiderBike) (env : Environment) : ℝ :=
  let v_low : ℝ := 0.0
  let v_high : ℝ := 60.0 / 3.6
  let s := (bisectStep (fun v => power_required v slope_tan bearing_deg rb env 0.0)
    power_w)^[50] (v_low, v_high)
  0.5 * (s.1 + s.2)

/-- Slope-based initialisation of the pacing series in `pace_heuristic`
(`optimizer.py`): the flat power target, multiplied by `up_mult` above +2%
grade and by `down_mult` below -2% grade. -/
noncomputable def baseSeries (slope : List ℝ) (P_flat up_mult down_mult : ℝ) : List ℝ :=
  slope.map fun s =>
    if s > 0.02 then P_flat * up_mult
    else if s < -0.02 then P_flat * down_mult
    else P_flat

/-- One step of the forward smoothing pass of `pace_heuristic`: clamp the
current value to within `max_delta_w` of the previous (already smoothed)
value. -/
noncomputable def smoothStep (max_delta_w prev cur : ℝ) : ℝ :=
  min (max cur (prev - max_delta_w)) (prev + max_delta_w)

/-- Tail of the smoothing pass, carrying the previous smoothed value. -/
noncomputable def smoothFrom (max_delta_w prev : ℝ) : List ℝ → List ℝ
  | [] => []
  | q :: qs => smoothStep max_delta_w prev q :: smoothFrom max_delta_w (smoothStep max_delta_w prev q) qs

/-- The full forward smoothing pass of `pace_heuristic` (the first element
is never modified). -/
noncomputable def smooth (max_delta_w : ℝ) : List ℝ → List ℝ
  | [] => []
  | p :: ps => p :: smoothFrom max_delta_w p ps

/-- The CP/W' guard loop of `pace_heuristic`, carrying the running
anaerobic balance `wbal`: power above `cp` depletes the balance by
`(p - cp) * dt_guess` (floored at 0) and the sample is capped at `cp` once
the balance is ≤ 0; power at or below `cp` replenishes the balance by
`(cp - p) * 0.3 * dt_guess`, capped at the full `w_prime`. -/
noncomputable def guardGo (cp w_prime dt_guess : ℝ) (wbal : ℝ) : List ℝ → List ℝ
  | [] => []
  | p :: ps =>
    if p > cp then
      let wbal2 := max 0.0 (wbal - (p - cp) * dt_guess)
      (if wbal2 ≤ 0.0 then cp else p) :: guardGo cp w_prime dt_guess wbal2 ps
    else
      p :: guardGo cp w_prime dt_guess (min w_prime (wbal + (cp - p) * 0.3 * dt_guess)) ps

/-- `pace_heuristic` from `optimizer.py`: slope-multiplied base series,
forward smoothing, then the CP/W' guard — the guard only runs when both
`rb.cp` and `rb.w_prime_j` are truthy in Python (present and nonzero).
Inside the guard branch the source reads `dist_m[1] - dist_m[0]`, which
raises `IndexError` when fewer than two distance samples are given; that
is modelled by returning `none`. -/
noncomputable def pace_heuristic (dist_m slope bearings_deg : List ℝ)
    (rb : RiderBike) (env : Environment)
    (P_flat up_mult down_mult max_delta_w : ℝ) : Option (List ℝ) :=
  let P := smooth max_delta_w (baseSeries slope P_flat up_mult down_mult)
  match rb.cp, rb.w_prime_j with
  | some cp, some wp =>
    if cp ≠ 0 ∧ wp ≠ 0 then
      match dist_m with
      | d0 :: d1 :: _ => some (guardGo cp wp ((d1 - d0) / 8.0) wp P)
      | _ => none
    else some P
  | _, _ => some P

/-- `simulate` from `optimizer.py`: per-sample inverse of the physics
model plus integration.  The source reads `dist_m[1] - dist_m[0]` and
indexes `slope[i]` and `bearings_deg[i]` for every `i` below the length of
`P_target`; inputs on which that would raise `IndexError` are modelled by
`none`. -/
noncomputable def simulate (dist_m slope bearings_deg P_target : List ℝ)
    (rb : RiderBike) (env : Environment) : Option (List ℝ × List ℝ × ℝ × ℝ) :=
  match dist_m with
  | d0 :: d1 :: _ =>
    if slope.length < P_target.length ∨ bearings_deg.length < P_target.length then none
    else
      let ds := d1 - d0
      let v := (List.range P_target.length).map fun i =>
        speed_from_power (P_target.getD i 0) (slope.getD i 0) (bearings_deg.getD i 0) rb env
      let dt := v.map fun x => ds / max 0.01 x
      let T := dt.sum
      let work_J := ((List.range P_target.length).map fun i => P_target.getD i 0 * dt.getD i 0).sum
      some (v, dt, T, work_J)
  | _ => none

/-- Standard rider/bike fixture used throughout the source's doctests and
tests (`conftest.py`): 72 kg rider, 8 kg bike, Crr 0.0035, CdA 0.30,
efficiency 0.97, no CP/W'. -/
def rb0 : RiderBike := ⟨72, 8, 0.0035, 0.3, 0.97, none, none, none, none⟩

/-- Standard still-air environment fixture: sea-level density, no wind. -/
def env0 : Environment := ⟨1.225, 0, 0⟩

/-- Rider with CP set but `w_prime_j = 0.0`: falsy in Python, so the
CP/W' guard of `pace_heuristic` is skipped. -/
def rbZ : RiderBike := ⟨72, 8, 0.0035, 0.3, 0.97, some 100, some 0, none, none⟩

/-- Rider with CP 320 W and W' 80 J, used to exhibit two separate capping
episodes of the pacing guard. -/
def rbCE : RiderBike := ⟨72, 8, 0.0035, 0.3, 0.97, some 320, some 80, none, none⟩

/-- Slope series (18 samples): two flat, thirteen steep-down, three flat —
drives the pacing base series to 400 W, then 300 W, then back to 400 W. -/
def ceSlope : List ℝ :=
  [0, 0, -1, -1, -1, -1, -1, -1, -1, -1, -1, -1, -1, -1, -1, 0, 0, 0]

/-- The smoothed (pre-guard) pacing series produced from `ceSlope` with
flat power 400, down multiplier 0.75 and max step 30. -/
def ceSmoothed : List ℝ :=
  [400, 400, 370, 340, 310, 300, 300, 300, 300, 300, 300, 300, 300, 300, 300, 330, 360, 390]

/-- The pacing output for `ceSlope` with `rbCE` and spacing 8 m: the guard
caps samples 0–3 at CP, lets the balance recover over the 300 W stretch,
survives 330 and 360 W, then caps sample 17 back to 320 W — a 40 W drop
from sample 16. -/
def ceOut : List ℝ :=
  [320, 320, 320, 320, 310, 300, 300, 300, 300, 300, 300, 300, 300, 300, 300, 330, 360, 320]

/-- Interval invariant of the bisection loop: starting from an interval
inside `[0, H]`, every iterate stays an ordered subinterval of `[0, H]`. -/
theorem bisect_iterate_bounds (f : ℝ → ℝ) (P : ℝ) (lo hi H : ℝ)
    (h0 : 0 ≤ lo) (hlh : lo ≤ hi) (hH : hi ≤ H) (n : ℕ) :
    0 ≤ ((bisectStep f P)^[n] (lo, hi)).1 ∧
    ((bisectStep f P)^[n] (lo, hi)).1 ≤ ((bisectStep f P)^[n] (lo, hi)).2 ∧
    ((bisectStep f P)^[n] (lo, hi)).2 ≤ H := by
  induction n with
  | zero => exact ⟨h0, hlh, hH⟩
  | succ n ih =>
    obtain ⟨h1, h2, h3⟩ := ih
    rw [Function.iterate_succ_apply']
    set s := (bisectStep f P)^[n] (lo, hi) with hs
    simp only [bisectStep]
    split_ifs with h
    · exact ⟨h1, by linarith, by linarith⟩
    · exact ⟨by linarith, by linarith, h3⟩

/-- C9: the inverse solver `speed_from_power` always returns a value in
the search interval `[0, 60/3.6]` m/s, whatever the power, slope, bearing,
rider and environment: the bisection never leaves its initial bracket, so
the returned speed is capped at 60 km/h even when more power is supplied
than that speed would need. -/
theorem C9_speed_from_power_capped (power_w slope_tan bearing_deg : ℝ)
    (rb : RiderBike) (env : Environment) :
    0 ≤ speed_from_power power_w slope_tan bearing_deg rb env ∧
    speed_from_power power_w slope_tan bearing_deg rb env ≤ 60 / 3.6 := by
  unfold speed_from_power
  obtain ⟨h1, h2, h3⟩ := bisect_iterate_bounds
    (fun v => power_required v slope_tan bearing_deg rb env 0.0) power_w
    0.0 (60.0 / 3.6) (60 / 3.6) (by norm_num) (by norm_num) (by norm_num) 50
  constructor
  · dsimp only
    linarith
  · dsimp only
    linarith

/-- C8: `power_required` is clamped with `max 0.0 _` in the source, so it
never returns a negative value, for any input whatsoever (steep descents
and tailwinds included). -/
theorem C8_power_required_nonneg (v_ms slope_tan bearing_deg : ℝ)
    (rb : RiderBike) (env : Environment) (acc_ms2 : ℝ) :
    0 ≤ power_required v_ms slope_tan bearing_deg rb env acc_ms2 := by
  simp only [power_required]
  exact le_trans (by norm_num : (0 : ℝ) ≤ 0.0) (le_max_left _ _)

/-- Relative air speed for a rider heading due north (bearing 0): the
rider velocity vector is `(0, v)`, so the result is the norm of
`(-wind_u, v - wind_v)`. -/
theorem relative_air_speed_north (v ρ u w : ℝ) :
    relative_air_speed v 0 ⟨ρ, u, w⟩ = Real.sqrt (u ^ 2 + (v - w) ^ 2) := by
  simp only [relative_air_speed, radians, hypot]
  rw [show (0 : ℝ) * Real.pi / 180 = 0 by ring]
  rw [Real.sin_zero, Real.cos_zero]
  congr 1
  ring

/-- C2 counterexample: riding due north at 10 m/s with `wind_v_ms = +5`
(a wind vector pointing north, i.e. the same direction as travel per the
source's documented convention) gives a relative air speed of 5 m/s, not
the 15 m/s the claim asserts.  (The repository's own
`test_physics.test_headwind` shares the spec's from/toward confusion and
contradicts both the code and the `models.py` docstring.) -/
theorem C2_wind_sign_counterexample :
    relative_air_speed 10 0 ⟨1.225, 0, 5⟩ ≠ 15 := by
  rw [relative_air_speed_north]
  rw [show (0 : ℝ) ^ 2 + (10 - 5) ^ 2 = 5 ^ 2 by norm_num]
  rw [Real.sqrt_sq (by norm_num : (0 : ℝ) ≤ 5)]
  norm_num

/-- C2 amended: for a rider heading due north at 10 m/s, a wind with
`wind_v_ms = +5` (northward wind vector, i.e. a tailwind) yields a
relative air speed of 5 m/s, and `wind_v_ms = -5` (a wind from the north,
a headwind) yields 15 m/s — the opposite of the claim's sign convention. -/
theorem C2_wind_sign_amended :
    relative_air_speed 10 0 ⟨1.225, 0, 5⟩ = 5 ∧
    relative_air_speed 10 0 ⟨1.225, 0, -5⟩ = 15 := by
  constructor
  · rw [relative_air_speed_north]
    rw [show (0 : ℝ) ^ 2 + (10 - 5) ^ 2 = 5 ^ 2 by norm_num]
    exact Real.sqrt_sq (by norm_num : (0 : ℝ) ≤ 5)
  · rw [relative_air_speed_north]
    rw [show (0 : ℝ) ^ 2 + (10 - -5) ^ 2 = 15 ^ 2 by norm_num]
    exact Real.sqrt_sq (by norm_num : (0 : ℝ) ≤ 15)

/-- With zero wind, the relative air speed of a non-negative ground speed
equals that speed, for every bearing. -/
theorem relative_air_speed_no_wind (v b : ℝ) (env : Environment)
    (hu : env.wind_u_ms = 0) (hw : env.wind_v_ms = 0) (hv : 0 ≤ v) :
    relative_air_speed v b env = v := by
  simp only [relative_air_speed, hypot, hu, hw]
  rw [show (v * Real.sin (radians b) - 0) ^ 2 + (v * Real.cos (radians b) - 0) ^ 2
      = v ^ 2 * (Real.sin (radians b) ^ 2 + Real.cos (radians b) ^ 2) by ring]
  rw [Real.sin_sq_add_cos_sq, mul_one]
  exact Real.sqrt_sq hv

/-- Closed form of `power_required` under zero wind, for non-negative
speed and zero acceleration: `max 0 ((A v + B v³) / eff)`, where `A`
collects the gravity and rolling coefficients and `B` the aerodynamic
coefficient. -/
theorem power_required_no_wind (v t b : ℝ) (rb : RiderBike) (env : Environment)
    (hu : env.wind_u_ms = 0) (hw : env.wind_v_ms = 0) (hv : 0 ≤ v) :
    power_required v t b rb env 0 =
      max 0 (((rb.mass_system_kg * GRAVITY * Real.sin (Real.arctan t)
          + rb.crr * rb.mass_system_kg * GRAVITY * Real.cos (Real.arctan t)) * v
        + 0.5 * env.air_density * rb.cda * v ^ 3) / rb.drivetrain_eff) := by
  simp only [power_required]
  rw [relative_air_speed_no_wind v b env hu hw hv]
  rw [show (0.0 : ℝ) = 0 by norm_num]
  congr 1
  ring

/-- Monotonicity of the clamped power polynomial: for a non-negative cubic
coefficient and positive efficiency, `max 0 ((A x + B x³) / e)` is
non-decreasing on the non-negative reals, for any sign of `A`. -/
theorem max0_cubic_mono (A B e x y : ℝ) (hB : 0 ≤ B) (he : 0 < e)
    (hx : 0 ≤ x) (hxy : x ≤ y) :
    max 0 ((A * x + B * x ^ 3) / e) ≤ max 0 ((A * y + B * y ^ 3) / e) := by
  rcases le_or_lt (A * x + B * x ^ 3) 0 with h | h
  · calc max 0 ((A * x + B * x ^ 3) / e) = 0 :=
          max_eq_left (div_nonpos_of_nonpos_of_nonneg h he.le)
      _ ≤ max 0 ((A * y + B * y ^ 3) / e) := le_max_left _ _
  · have hx0 : 0 < x := by
      rcases hx.lt_or_eq with h' | h'
      · exact h'
      · exfalso
        rw [← h'] at h
        simp at h
    have hy : 0 ≤ y := le_trans hx hxy
    have key : A * x + B * x ^ 3 ≤ A * y + B * y ^ 3 := by
      nlinarith [mul_nonneg (sub_nonneg.2 hxy) h.le,
        mul_nonneg (mul_nonneg hB (sub_nonneg.2 hxy)) (mul_nonneg hx hy),
        mul_nonneg (mul_nonneg hB (sub_nonneg.2 hxy)) (mul_nonneg hy hy)]
    have hq : (A * x + B * x ^ 3) / e ≤ (A * y + B * y ^ 3) / e :=
      (div_le_div_iff_of_pos_right he).2 key
    exact max_le_max (le_refl 0) hq

/-- Strict monotonicity of the clamped power polynomial when the linear
coefficient is positive. -/
theorem max0_cubic_strict_mono (A B e x y : ℝ) (hA : 0 < A) (hB : 0 ≤ B) (he : 0 < e)
    (hx : 0 ≤ x) (hxy : x < y) :
    max 0 ((A * x + B * x ^ 3) / e) < max 0 ((A * y + B * y ^ 3) / e) := by
  have hy : 0 ≤ y := le_trans hx hxy.le
  have hinx : 0 ≤ A * x + B * x ^ 3 :=
    add_nonneg (mul_nonneg hA.le hx) (mul_nonneg hB (pow_nonneg hx 3))
  have hiny : A * x + B * x ^ 3 < A * y + B * y ^ 3 := by
    nlinarith [mul_pos hA (sub_pos.2 hxy),
      mul_nonneg (mul_nonneg hB (sub_pos.2 hxy).le) (mul_nonneg hx hy),
      mul_nonneg (mul_nonneg hB (sub_pos.2 hxy).le) (mul_nonneg hy hy),
      mul_nonneg (mul_nonneg hB (sub_pos.2 hxy).le) (mul_nonneg hx hx)]
  rw [max_eq_right (div_nonneg hinx he.le),
    max_eq_right (div_nonneg (le_trans hinx hiny.le) he.le)]
  exact (div_lt_div_iff_of_pos_right he).2 hiny

/-- Bracketing invariant of the bisection: if `f` is strictly increasing
on `[0, H]` and `v` lies in `[0, H]`, then when bisecting towards the
target `f v` every iterate still brackets `v`, and the bracket width
halves each step. -/
theorem bisect_iterate_bracket (f : ℝ → ℝ) (v H : ℝ)
    (hmono : ∀ x y, 0 ≤ x → x < y → y ≤ H → f x < f y)
    (hv0 : 0 ≤ v) (hvH : v ≤ H) (n : ℕ) :
    ((bisectStep f (f v))^[n] (0, H)).1 ≤ v ∧
    v ≤ ((bisectStep f (f v))^[n] (0, H)).2 ∧
    ((bisectStep f (f v))^[n] (0, H)).2 - ((bisectStep f (f v))^[n] (0, H)).1 = H / 2 ^ n := by
  have hH0 : 0 ≤ H := le_trans hv0 hvH
  induction n with
  | zero => exact ⟨hv0, hvH, by norm_num⟩
  | succ n ih =>
    obtain ⟨h1, h2, h3⟩ := ih
    obtain ⟨b1, b2, b3⟩ :=
      bisect_iterate_bounds f (f v) 0 H H (le_refl 0) hH0 (le_refl H) n
    rw [Function.iterate_succ_apply']
    set s := (bisectStep f (f v))^[n] (0, H) with hs
    have hpow : H / 2 ^ (n + 1) = H / 2 ^ n / 2 := by
      rw [pow_succ]
      ring
    simp only [bisectStep]
    split_ifs with h
    · have hmid : v ≤ 0.5 * (s.1 + s.2) := by
        by_contra hc
        push_neg at hc
        have hlt := hmono _ _ (by linarith) hc hvH
        linarith
      exact ⟨h1, hmid, by rw [hpow]; dsimp only; linarith⟩
    · have hmid : 0.5 * (s.1 + s.2) ≤ v := by
        by_contra hc
        push_neg at hc
        have hlt := hmono v _ hv0 hc (by linarith)
        exact h hlt
      exact ⟨hmid, h2, by rw [hpow]; dsimp only; linarith⟩

/-- When the power function is ≤ the target everywhere on the search
interval, every bisection step takes the upper half, so the bracket
converges to the top of the interval. -/
theorem bisect_iterate_all_low (f : ℝ → ℝ) (H P : ℝ) (hH : 0 ≤ H)
    (hf : ∀ u, 0 ≤ u → u ≤ H → f u ≤ P) (n : ℕ) :
    (bisectStep f P)^[n] (0, H) = (H * (1 - (1 / 2) ^ n), H) := by
  induction n with
  | zero => simp
  | succ n ih =>
    rw [Function.iterate_succ_apply', ih]
    have hq0 : (0 : ℝ) ≤ (1 / 2) ^ n := by positivity
    have hq1 : ((1 : ℝ) / 2) ^ n ≤ 1 := pow_le_one₀ (by norm_num) (by norm_num)
    have hmid0 : 0 ≤ 0.5 * (H * (1 - (1 / 2) ^ n) + H) := by nlinarith
    have hmidH : 0.5 * (H * (1 - (1 / 2) ^ n) + H) ≤ H := by nlinarith
    simp only [bisectStep]
    rw [if_neg (not_lt.2 (hf _ hmid0 hmidH))]
    refine Prod.ext ?_ rfl
    show 0.5 * (H * (1 - (1 / 2) ^ n) + H) = H * (1 - (1 / 2) ^ (n + 1))
    rw [pow_succ]
    ring

/-- On the steep descent `slope_tan = -3/4` the standard rider's required
power is clamped to 0 for every speed in the bisection's search interval:
the gravity term dominates rolling and aerodynamic drag throughout. -/
theorem power_required_steep_descent_zero (u : ℝ) (hu0 : 0 ≤ u) (huH : u ≤ 60 / 3.6) :
    power_required u (-3 / 4 : ℝ) 0 rb0 env0 0 = 0 := by
  rw [power_required_no_wind u (-3 / 4) 0 rb0 env0 rfl rfl hu0]
  have hsqrt : Real.sqrt (1 + (-3 / 4 : ℝ) ^ 2) = 5 / 4 := by
    rw [show (1 : ℝ) + (-3 / 4) ^ 2 = (5 / 4) ^ 2 by norm_num]
    exact Real.sqrt_sq (by norm_num : (0 : ℝ) ≤ 5 / 4)
  have hsin : Real.sin (Real.arctan (-3 / 4 : ℝ)) = -3 / 5 := by
    rw [Real.sin_arctan, hsqrt]
    norm_num
  have hcos : Real.cos (Real.arctan (-3 / 4 : ℝ)) = 4 / 5 := by
    rw [Real.cos_arctan, hsqrt]
    norm_num
  rw [hsin, hcos, max_eq_left]
  apply div_nonpos_of_nonpos_of_nonneg
  · simp only [rb0, env0, RiderBike.mass_system_kg, GRAVITY]
    have hu2 : u ^ 2 ≤ (60 / 3.6) ^ 2 := by nlinarith
    nlinarith [mul_le_mul_of_nonneg_left hu2 hu0]
  · norm_num [rb0]

/-- C1 counterexample: at the valid speed 2 m/s on a steep descent
(`slope_tan = -3/4`, bearing 0, standard rider, still air) the forward
model clamps the required power to 0; feeding that 0 W back into
`speed_from_power` makes every bisection step take the upper half, so the
solver returns almost 60/3.6 ≈ 16.67 m/s — more than 14 m/s away from the
original speed, refuting the round-trip property as stated. -/
theorem C1_round_trip_counterexample :
    ¬ |speed_from_power (power_required 2 (-3 / 4) 0 rb0 env0 0) (-3 / 4) 0 rb0 env0 - 2|
      ≤ 0.01 := by
  rw [power_required_steep_descent_zero 2 (by norm_num) (by norm_num)]
  simp only [speed_from_power]
  rw [show (fun v => power_required v (-3 / 4 : ℝ) 0 rb0 env0 0.0)
      = fun v => power_required v (-3 / 4 : ℝ) 0 rb0 env0 0 by
    funext u
    rw [show (0.0 : ℝ) = 0 by norm_num]]
  rw [show ((0.0 : ℝ), (60.0 / 3.6 : ℝ)) = ((0 : ℝ), (60 / 3.6 : ℝ)) by norm_num]
  rw [bisect_iterate_all_low _ (60 / 3.6) 0 (by norm_num)
    (fun u h1 h2 => (power_required_steep_descent_zero u h1 h2).le) 50]
  rw [not_le]
  refine lt_of_lt_of_le ?_ (le_abs_self _)
  norm_num

/-- C1 amended: the round trip
`speed_from_power (power_required v ...) ... ≈ v` (within 0.01 m/s) holds
for speeds in the solver's search interval `[0, 60/3.6]` when the power
curve is strictly increasing there: zero wind, non-negative slope,
positive mass, rolling resistance and efficiency, non-negative
density×CdA.  (The counterexample shows it fails on descents where the
non-negativity clamp flattens the power curve, and monotonicity can also
fail with wind.) -/
theorem C1_round_trip_amended (v slope_tan bearing_deg : ℝ)
    (rb : RiderBike) (env : Environment)
    (hu : env.wind_u_ms = 0) (hw : env.wind_v_ms = 0)
    (hm : 0 < rb.mass_system_kg) (hcrr : 0 < rb.crr)
    (hB : 0 ≤ env.air_density * rb.cda) (he : 0 < rb.drivetrain_eff)
    (ht : 0 ≤ slope_tan) (hv0 : 0 ≤ v) (hvH : v ≤ 60 / 3.6) :
    |speed_from_power (power_required v slope_tan bearing_deg rb env 0)
      slope_tan bearing_deg rb env - v| ≤ 0.01 := by
  have hg : (0 : ℝ) < GRAVITY := by norm_num [GRAVITY]
  have hsin : 0 ≤ Real.sin (Real.arctan slope_tan) := by
    rw [Real.sin_arctan]
    exact div_nonneg ht (Real.sqrt_nonneg _)
  have hcos : 0 < Real.cos (Real.arctan slope_tan) := by
    rw [Real.cos_arctan]
    exact one_div_pos.2 (Real.sqrt_pos.2 (by positivity))
  have hA : 0 < rb.mass_system_kg * GRAVITY * Real.sin (Real.arctan slope_tan)
      + rb.crr * rb.mass_system_kg * GRAVITY * Real.cos (Real.arctan slope_tan) :=
    add_pos_of_nonneg_of_pos
      (mul_nonneg (mul_nonneg hm.le hg.le) hsin)
      (mul_pos (mul_pos (mul_pos hcrr hm) hg) hcos)
  have hB' : 0 ≤ 0.5 * env.air_density * rb.cda := by linarith
  have hmono : ∀ x y, 0 ≤ x → x < y → y ≤ 60 / 3.6 →
      power_required x slope_tan bearing_deg rb env 0
        < power_required y slope_tan bearing_deg rb env 0 := by
    intro x y hx hxy hyH
    rw [power_required_no_wind x slope_tan bearing_deg rb env hu hw hx,
      power_required_no_wind y slope_tan bearing_deg rb env hu hw (by linarith)]
    exact max0_cubic_strict_mono _ _ _ x y hA hB' he hx hxy
  obtain ⟨h1, h2, h3⟩ := bisect_iterate_bracket
    (fun u => power_required u slope_tan bearing_deg rb env 0) v (60 / 3.6)
    hmono hv0 hvH 50
  simp only [speed_from_power]
  rw [show (fun u => power_required u slope_tan bearing_deg rb env 0.0)
      = fun u => power_required u slope_tan bearing_deg rb env 0 by
    funext u
    rw [show (0.0 : ℝ) = 0 by norm_num]]
  rw [show ((0.0 : ℝ), (60.0 / 3.6 : ℝ)) = ((0 : ℝ), (60 / 3.6 : ℝ)) by norm_num]
  have hwidth : ((60 : ℝ) / 3.6) / 2 ^ 50 ≤ 0.02 := by norm_num
  rw [abs_le]
  constructor
  · linarith
  · linarith

/-- C1 amended witness: the round trip recovers 10 m/s on flat ground for
the standard rider in still air. -/
theorem C1_round_trip_amended_witness :
    |speed_from_power (power_required 10 0 0 rb0 env0 0) 0 0 rb0 env0 - 10| ≤ 0.01 :=
  C1_round_trip_amended 10 0 0 rb0 env0 rfl rfl
    (by norm_num [rb0, RiderBike.mass_system_kg]) (by norm_num [rb0])
    (by norm_num [rb0, env0]) (by norm_num [rb0]) (le_refl 0) (by norm_num) (by norm_num)

/-- Closed form of `power_required` for a rider heading due north
(bearing 0), arbitrary wind, zero acceleration. -/
theorem power_required_north (v t : ℝ) (rb : RiderBike) (ρ u w : ℝ) :
    power_required v t 0 rb ⟨ρ, u, w⟩ 0 =
      max 0 ((rb.mass_system_kg * GRAVITY * v * Real.sin (Real.arctan t)
        + rb.crr * rb.mass_system_kg * GRAVITY * v * Real.cos (Real.arctan t)
        + 0.5 * ρ * rb.cda * Real.sqrt (u ^ 2 + (v - w) ^ 2) ^ 3)
          / rb.drivetrain_eff) := by
  simp only [power_required]
  rw [relative_air_speed_north]
  rw [show (0.0 : ℝ) = 0 by norm_num]
  congr 1
  ring

/-- Two bisection runs towards targets `P1 ≤ P2` from the same bracket
either stay in lockstep or separate so that the whole `P1` bracket sits
below the whole `P2` bracket. -/
theorem bisect_iterate_pair_mono (f : ℝ → ℝ) (P1 P2 : ℝ) (h : P1 ≤ P2)
    (lo hi : ℝ) (hlh : lo ≤ hi) (n : ℕ) :
    (((bisectStep f P1)^[n] (lo, hi)).1 ≤ ((bisectStep f P1)^[n] (lo, hi)).2 ∧
      ((bisectStep f P2)^[n] (lo, hi)).1 ≤ ((bisectStep f P2)^[n] (lo, hi)).2) ∧
    ((bisectStep f P1)^[n] (lo, hi) = (bisectStep f P2)^[n] (lo, hi) ∨
      ((bisectStep f P1)^[n] (lo, hi)).2 ≤ ((bisectStep f P2)^[n] (lo, hi)).1) := by
  induction n with
  | zero => exact ⟨⟨hlh, hlh⟩, Or.inl rfl⟩
  | succ n ih =>
    obtain ⟨⟨hs, ht⟩, hrel⟩ := ih
    rw [Function.iterate_succ_apply', Function.iterate_succ_apply'] at *
    set s := (bisectStep f P1)^[n] (lo, hi) with hsdef
    set t := (bisectStep f P2)^[n] (lo, hi) with htdef
    rcases hrel with heq | hle
    · have hts : t.1 ≤ t.2 := ht
      rw [heq]
      simp only [bisectStep]
      by_cases h2 : f (0.5 * (t.1 + t.2)) > P2
      · have h1' : f (0.5 * (t.1 + t.2)) > P1 := lt_of_le_of_lt h h2
        rw [if_pos h1', if_pos h2]
        exact ⟨⟨by dsimp only; linarith, by dsimp only; linarith⟩, Or.inl rfl⟩
      · by_cases h1 : f (0.5 * (t.1 + t.2)) > P1
        · rw [if_pos h1, if_neg h2]
          exact ⟨⟨by dsimp only; linarith, by dsimp only; linarith⟩,
            Or.inr (by dsimp only; linarith)⟩
        · rw [if_neg h1, if_neg h2]
          exact ⟨⟨by dsimp only; linarith, by dsimp only; linarith⟩, Or.inl rfl⟩
    · simp only [bisectStep]
      split_ifs with h1 h2 h2
      · exact ⟨⟨by dsimp only; linarith, by dsimp only; linarith⟩,
          Or.inr (by dsimp only; linarith)⟩
      · exact ⟨⟨by dsimp only; linarith, by dsimp only; linarith⟩,
          Or.inr (by dsimp only; linarith)⟩
      · exact ⟨⟨by dsimp only; linarith, by dsimp only; linarith⟩,
          Or.inr (by dsimp only; linarith)⟩
      · exact ⟨⟨by dsimp only; linarith, by dsimp only; linarith⟩,
          Or.inr (by dsimp only; linarith)⟩

/-- C3 counterexample: with a 5 m/s tailwind (`wind_v_ms = +5`, rider
heading north) on flat ground, the standard rider needs strictly less
power at 1 m/s than at 0 m/s — the aerodynamic term decreases as ground
speed approaches wind speed — so `power_required` is not non-decreasing in
speed for every fixed slope/bearing/rider/environment with wind. -/
theorem C3_monotonicity_counterexample :
    ¬ power_required 0 0 0 rb0 ⟨1.225, 0, 5⟩ 0 ≤ power_required 1 0 0 rb0 ⟨1.225, 0, 5⟩ 0 := by
  rw [power_required_north, power_required_north]
  rw [show Real.sqrt ((0 : ℝ) ^ 2 + (0 - 5) ^ 2) = 5 by
    rw [show (0 : ℝ) ^ 2 + (0 - 5) ^ 2 = 5 ^ 2 by norm_num]
    exact Real.sqrt_sq (by norm_num)]
  rw [show Real.sqrt ((0 : ℝ) ^ 2 + (1 - 5) ^ 2) = 4 by
    rw [show (0 : ℝ) ^ 2 + (1 - 5) ^ 2 = 4 ^ 2 by norm_num]
    exact Real.sqrt_sq (by norm_num)]
  rw [Real.arctan_zero, Real.sin_zero, Real.cos_zero]
  simp only [rb0, RiderBike.mass_system_kg, GRAVITY]
  rw [max_eq_right (by norm_num), max_eq_right (by norm_num)]
  norm_num

/-- C3 amended: `power_required` is non-decreasing in speed on the
non-negative reals for zero wind (with non-negative density×CdA and
positive efficiency, any slope and bearing); and `speed_from_power` is
non-decreasing in power unconditionally — the wind case of the claim is
refuted by the counterexample. -/
theorem C3_monotonicity_amended :
    (∀ (rb : RiderBike) (env : Environment) (slope_tan bearing_deg x y : ℝ),
      env.wind_u_ms = 0 → env.wind_v_ms = 0 → 0 ≤ env.air_density * rb.cda →
      0 < rb.drivetrain_eff → 0 ≤ x → x ≤ y →
      power_required x slope_tan bearing_deg rb env 0
        ≤ power_required y slope_tan bearing_deg rb env 0) ∧
    (∀ (P1 P2 slope_tan bearing_deg : ℝ) (rb : RiderBike) (env : Environment),
      P1 ≤ P2 →
      speed_from_power P1 slope_tan bearing_deg rb env
        ≤ speed_from_power P2 slope_tan bearing_deg rb env) := by
  constructor
  · intro rb env slope_tan bearing_deg x y hu hw hB he hx hxy
    rw [power_required_no_wind x slope_tan bearing_deg rb env hu hw hx,
      power_required_no_wind y slope_tan bearing_deg rb env hu hw (le_trans hx hxy)]
    exact max0_cubic_mono _ _ _ x y (by linarith) he hx hxy
  · intro P1 P2 slope_tan bearing_deg rb env h
    simp only [speed_from_power]
    obtain ⟨⟨hs, ht⟩, hrel⟩ := bisect_iterate_pair_mono
      (fun u => power_required u slope_tan bearing_deg rb env 0.0) P1 P2 h
      0.0 (60.0 / 3.6) (by norm_num) 50
    rcases hrel with heq | hle
    · rw [heq]
    · linarith

/-- C3 amended witness: concrete monotonicity instances for the standard
rider in still air. -/
theorem C3_monotonicity_amended_witness :
    power_required 9 0 0 rb0 env0 0 ≤ power_required 10 0 0 rb0 env0 0 ∧
    speed_from_power 150 0 0 rb0 env0 ≤ speed_from_power 250 0 0 rb0 env0 :=
  ⟨C3_monotonicity_amended.1 rb0 env0 0 0 9 10 rfl rfl (by norm_num [env0, rb0])
      (by norm_num [rb0]) (by norm_num) (by norm_num),
    C3_monotonicity_amended.2 150 250 0 0 rb0 env0 (by norm_num)⟩

/-- C4 counterexample: constructing an `Environment` with a non-positive
air density (-1 kg/m³) succeeds and raises no error — the dataclass has
no validation, contradicting the fail-fast claim. -/
theorem C4_fail_fast_counterexample :
    environmentInit (-1) 0 0 = Except.ok ⟨-1, 0, 0⟩ ∧
    ∀ msg : String, environmentInit (-1) 0 0 ≠ Except.error msg := by
  refine ⟨rfl, fun msg hmsg => ?_⟩
  simp [environmentInit] at hmsg

/-- C4 amended: neither parameter object performs any construction-time
validation (all values, however unphysical, are accepted without error),
and `simulate` performs no descriptive input validation: with fewer than
two distance samples it fails only with an `IndexError` (modelled as
`none`), and it silently accepts non-monotonic distances. -/
theorem C4_no_validation_amended :
    (∀ (m mb crr cda eff : ℝ) (cp wp ftp : Option ℝ) (age : Option ℤ),
      riderBikeInit m mb crr cda eff cp wp ftp age =
        Except.ok ⟨m, mb, crr, cda, eff, cp, wp, ftp, age⟩) ∧
    (∀ ρ u w : ℝ, environmentInit ρ u w = Except.ok ⟨ρ, u, w⟩) ∧
    (∀ (dist slope bearings P : List ℝ) (rb : RiderBike) (env : Environment),
      dist.length < 2 → simulate dist slope bearings P rb env = none) ∧
    (simulate [8, 0] [0] [0] [200] rb0 env0).isSome = true := by
  refine ⟨fun _ _ _ _ _ _ _ _ _ => rfl, fun _ _ _ => rfl, ?_, ?_⟩
  · intro dist slope bearings P rb env hlen
    rcases dist with _ | ⟨d0, rest1⟩
    · rfl
    rcases rest1 with _ | ⟨d1, rest⟩
    · rfl
    · exfalso
      simp [List.length_cons] at hlen
      omega
  · simp only [simulate]
    norm_num

/-- C4 amended witness: `simulate` on a single-sample route returns the
error value. -/
theorem C4_no_validation_amended_witness :
    simulate [0] [] [] [] rb0 env0 = none :=
  C4_no_validation_amended.2.2.1 [0] [] [] [] rb0 env0 (by norm_num)

/-- C10: the CP/W' guard of `pace_heuristic` runs only when both `rb.cp`
and `rb.w_prime_j` are truthy (present and nonzero); when either is absent
or exactly 0 the output is exactly the slope-multiplied, smoothed series.
The second conjunct exhibits a rider with CP = 100 W but W' = 0 whose
pacing output exceeds CP at every sample. -/
theorem C10_guard_truthiness :
    (∀ (dist slope bearings : List ℝ) (rb : RiderBike) (env : Environment)
        (P_flat up_mult down_mult max_delta_w : ℝ),
      (rb.cp = none ∨ rb.cp = some 0 ∨ rb.w_prime_j = none ∨ rb.w_prime_j = some 0) →
      pace_heuristic dist slope bearings rb env P_flat up_mult down_mult max_delta_w =
        some (smooth max_delta_w (baseSeries slope P_flat up_mult down_mult))) ∧
    (pace_heuristic [0, 8] [0, 0] [0, 0] rbZ env0 400 1.10 0.75 30 = some [400, 400] ∧
      ∀ x ∈ ([400, 400] : List ℝ), (100 : ℝ) < x) := by
  constructor
  · intro dist slope bearings rb env P_flat up_mult down_mult max_delta_w hcond
    rcases hc : rb.cp with _ | c
    · simp [pace_heuristic, hc]
    rcases hw : rb.w_prime_j with _ | w
    · simp [pace_heuristic, hc, hw]
    rcases hcond with h | h | h | h
    · rw [hc] at h
      exact absurd h (by simp)
    · rw [hc] at h
      rw [Option.some_inj] at h
      simp [pace_heuristic, hc, hw, h]
    · rw [hw] at h
      exact absurd h (by simp)
    · rw [hw] at h
      rw [Option.some_inj] at h
      simp [pace_heuristic, hc, hw, h]
  · constructor
    · norm_num [pace_heuristic, rbZ, smooth, smoothFrom, smoothStep, baseSeries]
    · intro x hx
      fin_cases hx <;> norm_num

/-- C10 witness: with `rbZ` (W' set to 0.0, falsy in Python) the guard is
skipped and the output is exactly the smoothed base series. -/
theorem C10_guard_truthiness_witness :
    pace_heuristic [0, 8] [0, 0] [0, 0] rbZ env0 400 1.10 0.75 30 =
      some (smooth 30 (baseSeries [0, 0] 400 1.10 0.75)) :=
  C10_guard_truthiness.1 [0, 8] [0, 0] [0, 0] rbZ env0 400 1.10 0.75 30
    (Or.inr (Or.inr (Or.inr rfl)))

/-- On slopes within the ±2% band the base pacing series is constant at
the flat power target. -/
theorem baseSeries_const (slope : List ℝ) (P_flat up_mult down_mult : ℝ)
    (hslope : ∀ s ∈ slope, -0.02 ≤ s ∧ s ≤ 0.02) :
    baseSeries slope P_flat up_mult down_mult = List.replicate slope.length P_flat := by
  induction slope with
  | nil => rfl
  | cons s tl ih =>
    obtain ⟨h1, h2⟩ := hslope s (List.mem_cons_self s tl)
    simp only [baseSeries, List.map_cons, List.length_cons, List.replicate_succ]
    rw [if_neg (not_lt.2 h2), if_neg (not_lt.2 (by linarith : (-0.02 : ℝ) ≤ s))]
    exact congrArg _ (ih fun x hx => hslope x (List.mem_cons_of_mem s hx))

/-- Smoothing a constant series is the identity (for a non-negative step
bound). -/
theorem smooth_replicate (max_delta_w P : ℝ) (hΔ : 0 ≤ max_delta_w) (n : ℕ) :
    smooth max_delta_w (List.replicate n P) = List.replicate n P := by
  have hstep : smoothStep max_delta_w P P = P := by
    rw [smoothStep, max_eq_left (by linarith), min_eq_left (by linarith)]
  have haux : ∀ m, smoothFrom max_delta_w P (List.replicate m P) = List.replicate m P := by
    intro m
    induction m with
    | zero => rfl
    | succ m ihm =>
      rw [List.replicate_succ, smoothFrom, hstep, ihm]
  cases n with
  | zero => rfl
  | succ n => rw [List.replicate_succ, smooth, haux]

/-- The guard preserves the length of the power series. -/
theorem guardGo_length (cp w_prime dt_guess : ℝ) (l : List ℝ) :
    ∀ wbal, (guardGo cp w_prime dt_guess wbal l).length = l.length := by
  induction l with
  | nil => intro wbal; rfl
  | cons p ps ih =>
    intro wbal
    simp only [guardGo]
    split_ifs <;> simp [ih]

/-- Exact depletion semantics of the guard on a constant supra-CP series:
with positive time step, sample `i` is capped at CP exactly when the
initial balance is at most `(i+1)` depletion quanta. -/
theorem guardGo_replicate (c w dt p : ℝ) (hp : c < p) (hdt : 0 < dt) :
    ∀ (n : ℕ) (wbal : ℝ) (i : ℕ), i < n →
      (guardGo c w dt wbal (List.replicate n p)).getD i 0 =
        if wbal ≤ ((i : ℝ) + 1) * ((p - c) * dt) then c else p := by
  have hx : 0 < (p - c) * dt := mul_pos (sub_pos.2 hp) hdt
  intro n
  induction n with
  | zero => exact fun wbal i hi => absurd hi (Nat.not_lt_zero i)
  | succ n ih =>
    intro wbal i hi
    rw [List.replicate_succ]
    simp only [guardGo]
    rw [if_pos hp]
    rcases i with _ | i
    · rw [List.getD_cons_zero]
      have hiff : (max 0.0 (wbal - (p - c) * dt) ≤ 0.0) ↔
          (wbal ≤ (((0 : ℕ) : ℝ) + 1) * ((p - c) * dt)) := by
        rw [max_le_iff]
        constructor
        · rintro ⟨-, hE⟩
          push_cast
          linarith
        · intro hw
          push_cast at hw
          exact ⟨le_refl _, by linarith⟩
      rw [if_congr hiff rfl rfl]
    · rw [List.getD_cons_succ]
      rw [ih (max 0.0 (wbal - (p - c) * dt)) i (by omega)]
      have hi1 : (0 : ℝ) ≤ ((i : ℝ) + 1) * ((p - c) * dt) := by positivity
      have hiff : (max 0.0 (wbal - (p - c) * dt) ≤ ((i : ℝ) + 1) * ((p - c) * dt)) ↔
          (wbal ≤ (((i + 1 : ℕ) : ℝ) + 1) * ((p - c) * dt)) := by
        rw [max_le_iff]
        push_cast
        constructor
        · rintro ⟨-, hE⟩
          nlinarith
        · intro hw
          refine ⟨by linarith, by nlinarith⟩
      rw [if_congr hiff rfl rfl]

/-- C6: when CP and W' are both set and nonzero, `pace_heuristic` runs the
guard with `dt_estimate = (dist[1] - dist[0]) / 8` and an initial balance
of the full W'.  On a route whose slopes stay inside the ±2% band (so the
smoothed series is constantly `P_flat`) with `P_flat` above CP, sample `i`
is capped at CP exactly when `w ≤ (i+1) * (P_flat - cp) * dt_estimate` —
the balance depletes by `(power - cp) * dt_estimate` per sample and the
output equals CP from the first sample where it reaches zero onwards; in
particular sustained supra-CP power eventually yields output equal to CP. -/
theorem C6_w_prime_guard (dist slope bearings : List ℝ) (rb : RiderBike)
    (env : Environment) (P_flat up_mult down_mult max_delta_w c w d0 d1 : ℝ)
    (rest : List ℝ)
    (hcp : rb.cp = some c) (hwp : rb.w_prime_j = some w)
    (hc0 : c ≠ 0) (hw0 : w ≠ 0)
    (hdist : dist = d0 :: d1 :: rest)
    (hdt : 0 < (d1 - d0) / 8)
    (hslope : ∀ s ∈ slope, -0.02 ≤ s ∧ s ≤ 0.02)
    (hΔ : 0 ≤ max_delta_w) (hPflat : c < P_flat) :
    ∃ out, pace_heuristic dist slope bearings rb env
        P_flat up_mult down_mult max_delta_w = some out ∧
      out.length = slope.length ∧
      ∀ i, i < slope.length →
        out.getD i 0 =
          if w ≤ ((i : ℝ) + 1) * ((P_flat - c) * ((d1 - d0) / 8))
          then c else P_flat := by
  rw [hdist]
  simp only [pace_heuristic, hcp, hwp]
  rw [if_pos ⟨hc0, hw0⟩]
  rw [baseSeries_const slope P_flat up_mult down_mult hslope]
  rw [smooth_replicate max_delta_w P_flat hΔ]
  rw [show (8.0 : ℝ) = 8 by norm_num]
  refine ⟨_, rfl, ?_, ?_⟩
  · rw [guardGo_length, List.length_replicate]
  · intro i hi
    exact guardGo_replicate c w ((d1 - d0) / 8) P_flat hPflat hdt slope.length w i hi

/-- C6 witness: rider `rbCE` (CP 320 W, W' 80 J) on a flat three-sample
route with 8 m spacing and a 400 W flat target: the estimated balance hits
zero on the very first sample, so every sample is capped at CP. -/
theorem C6_w_prime_guard_witness :
    ∃ out, pace_heuristic [0, 8] [0, 0, 0] [0, 0, 0] rbCE env0 400 1.10 0.75 30 = some out ∧
      out.length = ([0, 0, 0] : List ℝ).length ∧
      ∀ i, i < ([0, 0, 0] : List ℝ).length →
        out.getD i 0 =
          if (80 : ℝ) ≤ ((i : ℝ) + 1) * ((400 - 320) * ((8 - 0) / 8))
          then 320 else 400 :=
  C6_w_prime_guard [0, 8] [0, 0, 0] [0, 0, 0] rbCE env0 400 1.10 0.75 30 320 80 0 8 []
    rfl rfl (by norm_num) (by norm_num) rfl (by norm_num)
    (by intro s hs; fin_cases hs <;> norm_num) (by norm_num) (by norm_num)

/-- Indexing a list built by mapping over `List.range`. -/
theorem getD_range_map (n : ℕ) (f : ℕ → ℝ) (i : ℕ) (hi : i < n) :
    ((List.range n).map f).getD i 0 = f i := by
  rw [List.getD_eq_getElem _ _ (by simpa using hi)]
  simp

/-- Indexing a mapped list in terms of `getD` of the original. -/
theorem getD_map_div (ds : ℝ) (v : List ℝ) (i : ℕ) (hi : i < v.length) :
    (v.map fun x => ds / max 0.01 x).getD i 0 = ds / max 0.01 (v.getD i 0) := by
  rw [List.getD_eq_getElem _ _ (by simpa using hi), List.getElem_map,
    List.getD_eq_getElem _ _ hi]

/-- Sum of a map over `List.range` as a `Finset.range` sum. -/
theorem list_range_map_sum (n : ℕ) (f : ℕ → ℝ) :
    ((List.range n).map f).sum = ∑ i ∈ Finset.range n, f i := by
  induction n with
  | zero => simp
  | succ n ih =>
    rw [List.range_succ, List.map_append, List.sum_append, Finset.sum_range_succ, ih]
    simp

/-- C7: for a route with at least two distance samples and slope/bearing
series long enough to index, `simulate` returns, for every sample `i`,
`speed[i] = speed_from_power(power[i], slope[i], bearing[i], rb, env)` and
`duration[i] = segment_length / max(0.01, speed[i])` with the segment
length taken from the first two distance values; the total time is the sum
of the durations and the total work is the sum of `power[i] * duration[i]`. -/
theorem C7_simulate_postcondition (dist slope bearings P : List ℝ)
    (rb : RiderBike) (env : Environment)
    (h2 : 2 ≤ dist.length) (hs : P.length ≤ slope.length)
    (hb : P.length ≤ bearings.length) :
    ∃ v dt T W, simulate dist slope bearings P rb env = some (v, dt, T, W) ∧
      v.length = P.length ∧ dt.length = P.length ∧
      (∀ i, i < P.length →
        v.getD i 0 = speed_from_power (P.getD i 0) (slope.getD i 0) (bearings.getD i 0) rb env ∧
        dt.getD i 0 = (dist.getD 1 0 - dist.getD 0 0) / max 0.01 (v.getD i 0)) ∧
      T = dt.sum ∧
      W = ∑ i ∈ Finset.range P.length, P.getD i 0 * dt.getD i 0 := by
  rcases dist with _ | ⟨d0, rest⟩
  · simp at h2
  rcases rest with _ | ⟨d1, rest2⟩
  · simp at h2
  simp only [simulate]
  rw [if_neg (not_or.2 ⟨not_lt.2 hs, not_lt.2 hb⟩)]
  refine ⟨_, _, _, _, rfl, by simp, by simp, ?_, rfl, ?_⟩
  · intro i hi
    constructor
    · rw [getD_range_map _ _ i hi]
    · rw [getD_map_div _ _ i (by simpa using hi)]
      simp [List.getD]
  · rw [list_range_map_sum]

/-- C7 witness: a two-sample route with one power sample. -/
theorem C7_simulate_postcondition_witness :
    ∃ v dt T W, simulate [0, 8] [0] [0] [200] rb0 env0 = some (v, dt, T, W) ∧
      v.length = ([200] : List ℝ).length ∧ dt.length = ([200] : List ℝ).length ∧
      (∀ i, i < ([200] : List ℝ).length →
        v.getD i 0 = speed_from_power (([200] : List ℝ).getD i 0)
          (([0] : List ℝ).getD i 0) (([0] : List ℝ).getD i 0) rb0 env0 ∧
        dt.getD i 0 = (([0, 8] : List ℝ).getD 1 0 - ([0, 8] : List ℝ).getD 0 0)
          / max 0.01 (v.getD i 0)) ∧
      T = dt.sum ∧
      W = ∑ i ∈ Finset.range ([200] : List ℝ).length,
        ([200] : List ℝ).getD i 0 * dt.getD i 0 :=
  C7_simulate_postcondition [0, 8] [0] [0] [200] rb0 env0
    (by norm_num) (by norm_num) (by norm_num)

/-- The smoothing tail keeps every consecutive pair within the step
bound. -/
theorem smoothFrom_chain (Δ : ℝ) (hΔ : 0 ≤ Δ) :
    ∀ (l : List ℝ) (prev : ℝ),
      List.Chain' (fun a b => |b - a| ≤ Δ) (prev :: smoothFrom Δ prev l) := by
  intro l
  induction l with
  | nil =>
    intro prev
    simp [smoothFrom]
  | cons q qs ih =>
    intro prev
    rw [smoothFrom, List.chain'_cons]
    refine ⟨?_, ih (smoothStep Δ prev q)⟩
    have h1 : prev - Δ ≤ smoothStep Δ prev q := le_min (le_max_right _ _) (by linarith)
    have h2 : smoothStep Δ prev q ≤ prev + Δ := min_le_right _ _
    rw [abs_le]
    exact ⟨by linarith, by linarith⟩

/-- The smoothing pass produces a series whose consecutive elements differ
by at most the step bound. -/
theorem smooth_chain (Δ : ℝ) (hΔ : 0 ≤ Δ) (l : List ℝ) :
    List.Chain' (fun a b => |b - a| ≤ Δ) (smooth Δ l) := by
  cases l with
  | nil => simp [smooth]
  | cons p ps =>
    rw [smooth]
    exact smoothFrom_chain Δ hΔ ps p

/-- First element emitted by the guard on a non-empty list. -/
theorem guardGo_head_cons (c w dt wbal q : ℝ) (qs : List ℝ) :
    (guardGo c w dt wbal (q :: qs)).head? =
      some (if q > c ∧ max 0.0 (wbal - (q - c) * dt) ≤ 0.0 then c else q) := by
  simp only [guardGo]
  by_cases hq : q > c
  · by_cases hcap : max 0.0 (wbal - (q - c) * dt) ≤ 0.0
    · simp [hq, hcap]
    · simp [hq, hcap]
  · simp [hq]

/-- Consecutive-pair form of `List.Chain'` via `getD`. -/
theorem chain'_getD (R : ℝ → ℝ → Prop) (l : List ℝ) (h : List.Chain' R l)
    (i : ℕ) (hi : i + 1 < l.length) : R (l.getD i 0) (l.getD (i + 1) 0) := by
  have hh := List.chain'_iff_get.1 h i (by omega)
  rw [List.getD_eq_getElem _ _ (by omega), List.getD_eq_getElem _ _ (by omega)]
  simpa [List.get_eq_getElem] using hh

/-- Unfolding equation for the guard on a supra-CP head. -/
theorem guardGo_cons_deplete (c w dt wbal p : ℝ) (ps : List ℝ) (hp : p > c) :
    guardGo c w dt wbal (p :: ps) =
      (if max 0.0 (wbal - (p - c) * dt) ≤ 0.0 then c else p)
        :: guardGo c w dt (max 0.0 (wbal - (p - c) * dt)) ps := by
  simp only [guardGo]
  rw [if_pos hp]

/-- Unfolding equation for the guard on a sub-CP head. -/
theorem guardGo_cons_replenish (c w dt wbal p : ℝ) (ps : List ℝ) (hp : ¬ p > c) :
    guardGo c w dt wbal (p :: ps) =
      p :: guardGo c w dt (min w (wbal + (c - p) * 0.3 * dt)) ps := by
  simp only [guardGo]
  rw [if_neg hp]

/-- Key structural property of the guard: applied (with non-negative time
step) to a series whose consecutive elements differ by at most Δ, every
consecutive output pair either still differs by at most Δ or is a
transition onto CP from a value strictly above CP (the entry into a
capping episode). -/
theorem guardGo_chain (c w dt Δ : ℝ) (hΔ : 0 ≤ Δ) (hdt : 0 ≤ dt) :
    ∀ (l : List ℝ) (wbal : ℝ), List.Chain' (fun a b => |b - a| ≤ Δ) l →
      List.Chain' (fun a b => |b - a| ≤ Δ ∨ (b = c ∧ c < a)) (guardGo c w dt wbal l) := by
  intro l
  induction l with
  | nil =>
    intro wbal _
    simp [guardGo]
  | cons p ps ih =>
    intro wbal hchain
    cases ps with
    | nil =>
      simp only [guardGo]
      split_ifs <;> simp [guardGo]
    | cons q qs =>
      rw [List.chain'_cons] at hchain
      obtain ⟨hpq, hchain'⟩ := hchain
      rw [abs_le] at hpq
      by_cases hp : p > c
      · rw [guardGo_cons_deplete c w dt wbal p (q :: qs) hp]
        set wbal2 := max 0.0 (wbal - (p - c) * dt) with hw2
        have hTail := ih wbal2 hchain'
        rw [List.chain'_cons']
        refine ⟨?_, hTail⟩
        intro y hy
        rw [guardGo_head_cons, Option.mem_some_iff] at hy
        subst hy
        by_cases hcap : wbal2 ≤ 0.0
        · rw [if_pos hcap]
          have hw0 : wbal2 = 0.0 := le_antisymm hcap (le_max_left _ _)
          by_cases hq : q > c
          · have hcapq : max 0.0 (wbal2 - (q - c) * dt) ≤ 0.0 := by
              apply max_le (le_refl 0.0)
              have hnn : 0 ≤ (q - c) * dt := mul_nonneg (by linarith) hdt
              rw [hw0]
              linarith
            rw [if_pos ⟨hq, hcapq⟩]
            left
            rw [sub_self, abs_zero]
            exact hΔ
          · rw [if_neg fun hand => hq hand.1]
            left
            rw [abs_le]
            have hqc : q ≤ c := not_lt.1 hq
            exact ⟨by linarith, by linarith⟩
        · rw [if_neg hcap]
          by_cases hq : q > c
          · by_cases hcapq : max 0.0 (wbal2 - (q - c) * dt) ≤ 0.0
            · rw [if_pos ⟨hq, hcapq⟩]
              right
              exact ⟨rfl, hp⟩
            · rw [if_neg fun hand => hcapq hand.2]
              left
              rw [abs_le]
              exact hpq
          · rw [if_neg fun hand => hq hand.1]
            left
            rw [abs_le]
            exact hpq
      · rw [guardGo_cons_replenish c w dt wbal p (q :: qs) hp]
        set wbal2 := min w (wbal + (c - p) * 0.3 * dt) with hw2
        have hTail := ih wbal2 hchain'
        rw [List.chain'_cons']
        refine ⟨?_, hTail⟩
        intro y hy
        rw [guardGo_head_cons, Option.mem_some_iff] at hy
        subst hy
        have hpc : p ≤ c := not_lt.1 hp
        by_cases hq : q > c
        · by_cases hcapq : max 0.0 (wbal2 - (q - c) * dt) ≤ 0.0
          · rw [if_pos ⟨hq, hcapq⟩]
            left
            rw [abs_le]
            exact ⟨by linarith, by linarith⟩
          · rw [if_neg fun hand => hcapq hand.2]
            left
            rw [abs_le]
            exact hpq
        · rw [if_neg fun hand => hq hand.1]
          left
          rw [abs_le]
          exact hpq

/-- C5 amended: for non-negative `max_delta_w` and non-decreasing first
two distance samples, consecutive elements of the pacing output differ by
at most `max_delta_w`, with the only permitted exceptions the transitions
onto a CP-capped sample from a value strictly above CP (the entry into
each capping episode of the W' guard, not only the first). -/
theorem C5_smoothness_amended (dist slope bearings : List ℝ) (rb : RiderBike)
    (env : Environment) (P_flat up_mult down_mult max_delta_w : ℝ)
    (hΔ : 0 ≤ max_delta_w)
    (hds : ∀ d0 d1 rest, dist = d0 :: d1 :: rest → d0 ≤ d1)
    (out : List ℝ)
    (hout : pace_heuristic dist slope bearings rb env P_flat up_mult down_mult max_delta_w
      = some out) :
    ∀ i, i + 1 < out.length →
      |out.getD (i + 1) 0 - out.getD i 0| ≤ max_delta_w ∨
      (∃ c, rb.cp = some c ∧ out.getD (i + 1) 0 = c ∧ c < out.getD i 0) := by
  have hsm := smooth_chain max_delta_w hΔ (baseSeries slope P_flat up_mult down_mult)
  rcases hcp : rb.cp with _ | c
  · simp only [pace_heuristic, hcp] at hout
    rw [Option.some_inj] at hout
    subst hout
    intro i hi
    exact Or.inl (chain'_getD _ _ hsm i hi)
  rcases hwp : rb.w_prime_j with _ | wp
  · simp only [pace_heuristic, hcp, hwp] at hout
    rw [Option.some_inj] at hout
    subst hout
    intro i hi
    exact Or.inl (chain'_getD _ _ hsm i hi)
  by_cases hcw : c ≠ 0 ∧ wp ≠ 0
  · rcases dist with _ | ⟨d0, rest⟩
    · simp only [pace_heuristic, hcp, hwp] at hout
      rw [if_pos hcw] at hout
      exact absurd hout (by simp)
    rcases rest with _ | ⟨d1, rest2⟩
    · simp only [pace_heuristic, hcp, hwp] at hout
      rw [if_pos hcw] at hout
      exact absurd hout (by simp)
    · simp only [pace_heuristic, hcp, hwp] at hout
      rw [if_pos hcw] at hout
      rw [Option.some_inj] at hout
      subst hout
      have hdt : (0 : ℝ) ≤ (d1 - d0) / 8.0 := by
        have hd := hds d0 d1 rest2 rfl
        rw [show (8.0 : ℝ) = 8 by norm_num]
        exact div_nonneg (by linarith) (by norm_num)
      have hchain := guardGo_chain c wp ((d1 - d0) / 8.0) max_delta_w hΔ hdt _ wp hsm
      intro i hi
      rcases chain'_getD _ _ hchain i hi with h | ⟨h1, h2⟩
      · exact Or.inl h
      · exact Or.inr ⟨c, rfl, h1, h2⟩
  · simp only [pace_heuristic, hcp, hwp] at hout
    rw [if_neg hcw] at hout
    rw [Option.some_inj] at hout
    subst hout
    intro i hi
    exact Or.inl (chain'_getD _ _ hsm i hi)

/-- Evaluation rule for a guard step that caps: the depleted balance hits
zero, the sample is replaced by CP and the loop continues with balance 0. -/
theorem guard_step_cap (c w dt wbal p : ℝ) (ps out2 : List ℝ)
    (h1 : p > c) (h2 : wbal - (p - c) * dt ≤ 0)
    (hrest : guardGo c w dt 0.0 ps = out2) :
    guardGo c w dt wbal (p :: ps) = c :: out2 := by
  rw [guardGo_cons_deplete c w dt wbal p ps h1, max_eq_left (by linarith)]
  rw [if_pos (le_refl (0.0 : ℝ)), hrest]

/-- Evaluation rule for a supra-CP guard step that does not cap: the
balance stays positive and the sample passes through unchanged. -/
theorem guard_step_go (c w dt wbal p wbal2 : ℝ) (ps out2 : List ℝ)
    (h1 : p > c) (hw : wbal - (p - c) * dt = wbal2) (h2 : 0 < wbal2)
    (hrest : guardGo c w dt wbal2 ps = out2) :
    guardGo c w dt wbal (p :: ps) = p :: out2 := by
  rw [guardGo_cons_deplete c w dt wbal p ps h1, hw, max_eq_right (by linarith)]
  rw [if_neg (by norm_num; linarith), hrest]

/-- Evaluation rule for a sub-CP guard step: the sample passes through and
the balance replenishes. -/
theorem guard_step_replenish (c w dt wbal p wbal2 : ℝ) (ps out2 : List ℝ)
    (h1 : ¬ p > c) (hw : min w (wbal + (c - p) * 0.3 * dt) = wbal2)
    (hrest : guardGo c w dt wbal2 ps = out2) :
    guardGo c w dt wbal (p :: ps) = p :: out2 := by
  rw [guardGo_cons_replenish c w dt wbal p ps h1, hw, hrest]

/-- C5 counterexample: on `ceSlope` with `rbCE` (CP 320, W' 80) the guard
caps samples 0–3 (first capping episode, starting at sample 0), the
balance recovers over the ten 300 W samples, samples 15–16 (330 W, 360 W)
pass through, and sample 17 (390 W) is capped back to 320 W — a 40 W drop
exceeding `max_delta_w = 30`.  The transition into sample 17 is not the
transition into the first capped sample (sample 0 is already capped, as
the last conjunct shows), so the claim's single permitted exception does
not cover it. -/
theorem C5_smoothness_counterexample :
    pace_heuristic [0, 8] ceSlope (List.replicate 18 0) rbCE env0 400 1.10 0.75 30
      = some ceOut ∧
    smooth 30 (baseSeries ceSlope 400 1.10 0.75) = ceSmoothed ∧
    ¬ |ceOut.getD 17 0 - ceOut.getD 16 0| ≤ 30 ∧
    ceOut.getD 0 0 ≠ ceSmoothed.getD 0 0 := by
  have hbase : baseSeries ceSlope 400 1.10 0.75 =
      [400, 400, 300, 300, 300, 300, 300, 300, 300, 300, 300, 300, 300, 300, 300,
        400, 400, 400] := by
    norm_num [baseSeries, ceSlope]
  have hsm : smooth 30 (baseSeries ceSlope 400 1.10 0.75) = ceSmoothed := by
    rw [hbase]
    norm_num [smooth, smoothFrom, smoothStep, ceSmoothed]
  have hg : guardGo 320 80 1 80 ceSmoothed = ceOut := by
    simp only [ceSmoothed, ceOut]
    refine guard_step_cap _ _ _ _ _ _ _ (by norm_num) (by norm_num) ?_
    refine guard_step_cap _ _ _ _ _ _ _ (by norm_num) (by norm_num) ?_
    refine guard_step_cap _ _ _ _ _ _ _ (by norm_num) (by norm_num) ?_
    refine guard_step_cap _ _ _ _ _ _ _ (by norm_num) (by norm_num) ?_
    refine guard_step_replenish _ _ _ _ _ 3 _ _ (by norm_num) (by norm_num) ?_
    refine guard_step_replenish _ _ _ _ _ 9 _ _ (by norm_num) (by norm_num) ?_
    refine guard_step_replenish _ _ _ _ _ 15 _ _ (by norm_num) (by norm_num) ?_
    refine guard_step_replenish _ _ _ _ _ 21 _ _ (by norm_num) (by norm_num) ?_
    refine guard_step_replenish _ _ _ _ _ 27 _ _ (by norm_num) (by norm_num) ?_
    refine guard_step_replenish _ _ _ _ _ 33 _ _ (by norm_num) (by norm_num) ?_
    refine guard_step_replenish _ _ _ _ _ 39 _ _ (by norm_num) (by norm_num) ?_
    refine guard_step_replenish _ _ _ _ _ 45 _ _ (by norm_num) (by norm_num) ?_
    refine guard_step_replenish _ _ _ _ _ 51 _ _ (by norm_num) (by norm_num) ?_
    refine guard_step_replenish _ _ _ _ _ 57 _ _ (by norm_num) (by norm_num) ?_
    refine guard_step_replenish _ _ _ _ _ 63 _ _ (by norm_num) (by norm_num) ?_
    refine guard_step_go _ _ _ _ _ 53 _ _ (by norm_num) (by norm_num) (by norm_num) ?_
    refine guard_step_go _ _ _ _ _ 13 _ _ (by norm_num) (by norm_num) (by norm_num) ?_
    refine guard_step_cap _ _ _ _ _ _ _ (by norm_num) (by norm_num) ?_
    rfl
  refine ⟨?_, hsm, ?_, ?_⟩
  · simp only [pace_heuristic, rbCE]
    rw [if_pos (by norm_num : (320 : ℝ) ≠ 0 ∧ (80 : ℝ) ≠ 0)]
    rw [show ((8 : ℝ) - 0) / 8.0 = 1 by norm_num]
    rw [hsm, hg]
  · norm_num [ceOut]
  · norm_num [ceOut, ceSmoothed]

/-- C5 amended witness: with no CP set the output is the smoothed series
and the first consecutive pair differs by at most 30 W. -/
theorem C5_smoothness_amended_witness :
    |([400, 400] : List ℝ).getD (0 + 1) 0 - ([400, 400] : List ℝ).getD 0 0| ≤ 30 ∨
    (∃ c, rb0.cp = some c ∧ ([400, 400] : List ℝ).getD (0 + 1) 0 = c ∧
      c < ([400, 400] : List ℝ).getD 0 0) :=
  C5_smoothness_amended [0, 8] [0, 0] [0, 0] rb0 env0 400 1.10 0.75 30
    (by norm_num)
    (by
      intro a b r h
      injection h with h1 h2
      injection h2 with h3 h4
      subst h1
      subst h3
      norm_num)
    [400, 400]
    (by norm_num [pace_heuristic, rb0, smooth, smoothFrom, smoothStep, baseSeries])
    0 (by norm_num)
